import Mathlib

/-!
# Shallow embedding of the WGSL lexer (`src/front/wgsl/lexer.rs`)

Strings are modelled as `List Char`, mirroring Rust `&str` slices traversed by
`chars()`.  Rust byte indices computed by `find`/`split_at` fall on the same
boundaries as character indices in every place the lexer splits (the split
points are always at the end of an ASCII run), so the character-level model is
faithful.  Spans are pairs of offsets measured against the original source.

The `Token` and `ExpectedToken` types and the error taxonomy live in the
sibling module `front/wgsl` (not part of this file's source); their variants
are reconstructed exactly from their uses inside `lexer.rs`: in particular
`Token::UnterminatedString` is used there without a payload, so it is a unit
variant.  The externally supplied vocabulary lookups `conv::get_scalar_type`
and `conv::map_storage_format` are taken as function parameters, and Rust's
`u32`/`i32` `FromStr` (used by `next_uint_literal` / `next_sint_literal`) is
modelled by `parseU32` / `parseI32`.
-/

/-- The double-quote character, written numerically. -/
def quoteChar : Char := Char.ofNat 34

/-- Rust `('0'..='9').contains(&c)`. -/
def isDigitChar (c : Char) : Bool :=
  decide ('0' ≤ c ∧ c ≤ '9')

/-- The character class of Rust's `'a'..='z' | 'A'..='Z' | '_'` match arm
(the characters that start a `Word` token). -/
def isWordStart (c : Char) : Bool :=
  decide ('a' ≤ c ∧ c ≤ 'z') || decide ('A' ≤ c ∧ c ≤ 'Z') || (c == '_')

/-- Rust `c.is_ascii_alphanumeric() || c == '_'` (the characters kept inside a
`Word` token). -/
def isWordChar (c : Char) : Bool :=
  decide ('a' ≤ c ∧ c ≤ 'z') || decide ('A' ≤ c ∧ c ≤ 'Z') || isDigitChar c || (c == '_')

/-- Rust `c == ' ' || c == '\n' || c == '\r' || c == '\t'`. -/
def isSpaceChar (c : Char) : Bool :=
  (c == ' ') || (c == '\n') || (c == '\r') || (c == '\t')

/-- Rust `Token<'a>` from `front/wgsl`, reconstructed from its uses in `lexer.rs`.
`UnterminatedString` is a unit variant there (`(Token::UnterminatedString,
quote_content)` type-checks only if the variant carries no payload). -/
inductive Token where
  | End : Token
  | Trivia : Token
  | Separator (c : Char) : Token
  | DoubleColon : Token
  | Paren (c : Char) : Token
  | DoubleParen (c : Char) : Token
  | Arrow : Token
  | Operation (c : Char) : Token
  | LogicalOperation (c : Char) : Token
  | ShiftOperation (c : Char) : Token
  | Word (s : List Char) : Token
  | Number (value : List Char) (ty : Char) (width : List Char) : Token
  | String (s : List Char) : Token
  | UnterminatedString : Token
  | Unknown (c : Char) : Token
deriving DecidableEq

/-- Rust `ExpectedToken<'a>` from `front/wgsl`, variants as used in `lexer.rs`. -/
inductive ExpectedToken where
  | Token (t : Token) : ExpectedToken
  | Identifier : ExpectedToken
  | Uint : ExpectedToken
  | Sint : ExpectedToken
deriving DecidableEq

/-- Rust `Error<'a>` from `front/wgsl`, variants as used in `lexer.rs`.  The Rust
variants `BadU32`/`BadI32` also carry the `ParseIntError`; the model keeps only
the span, which is all the lexer layer depends on. -/
inductive Error where
  | Unexpected (found : Token × Nat × Nat) (expected : ExpectedToken) : Error
  | BadU32 (span : Nat × Nat) : Error
  | BadI32 (span : Nat × Nat) : Error
  | UnknownScalarType (span : Nat × Nat) : Error
  | BadStorageFormat (span : Nat × Nat) : Error
deriving DecidableEq

/-- Rust `consume_any`: split at the first character failing the predicate
(`input.find(|c| !what(c))` followed by `split_at`). -/
def consume_any (input : List Char) (what : Char → Bool) : List Char × List Char :=
  (input.takeWhile what, input.dropWhile what)

/-- Rust `Iterator::position`: index of the first element satisfying the
predicate. -/
def positionOf (p : Char → Bool) : List Char → Option Nat
  | [] => none
  | c :: cs => if p c then some 0 else (positionOf p cs).map (· + 1)

/-- One step of the stateful closure `what` inside `consume_number`: given
`(is_first_char, right_after_exponent)` and the character, returns
(accepted?, new is_first_char, new right_after_exponent). -/
def numStep (isFirst afterExp : Bool) (c : Char) : Bool × Bool × Bool :=
  if isFirst then ((c == '-') || isDigitChar c || (c == '.'), false, afterExp)
  else if (c == 'e') || (c == 'E') then (true, isFirst, true)
  else if afterExp then (isDigitChar c || (c == '-'), isFirst, false)
  else (isDigitChar c || (c == '.'), isFirst, afterExp)

/-- The numeric-core scan of `consume_number`: Rust's
`input.find(|c| !what(c))` with the stateful closure, together with the
`split_at` on the found position. -/
def scanCore (isFirst afterExp : Bool) : List Char → List Char × List Char
  | [] => ([], [])
  | c :: cs =>
    let s := numStep isFirst afterExp c
    if s.1 then
      let p := scanCore s.2.1 s.2.2 cs
      (c :: p.1, p.2)
    else ([], c :: cs)

/-- Rust `consume_number`. After the scanned core, a `u`/`i`/`f` tag is taken
together with the following digit run; Rust computes the split point as
`rest_iter.position(|c| !('0'..='9').contains(&c)).unwrap_or(rest.len() - 1)`
(a character position; the prefix up to it is all ASCII digits, so byte and
character indices agree). -/
def consume_number (input : List Char) : Token × List Char :=
  let core := scanCore true false input
  let value := core.1
  let rest := core.2
  match rest with
  | ty :: rest1 =>
    if ty = 'u' ∨ ty = 'i' ∨ ty = 'f' then
      let width_end :=
        match positionOf (fun c => !(isDigitChar c)) rest1 with
        | some k => k
        | none => rest.length - 1
      (Token.Number value ty (rest1.take width_end), rest1.drop width_end)
    else
      (Token.Number value (if value.contains '.' then 'f' else 'i') [], rest)
  | [] => (Token.Number value (if value.contains '.' then 'f' else 'i') [], rest)

/-- Rust `chars.as_str().splitn(2, '"')` on the text after the opening quote:
`some (content, rest)` when a closing quote exists, `none` otherwise. -/
def splitOnQuote : List Char → Option (List Char × List Char)
  | [] => none
  | c :: cs =>
    if c = quoteChar then some ([], cs)
    else match splitOnQuote cs with
      | some p => some (c :: p.1, p.2)
      | none => none

/-- Rust `let _ = chars.position(|c| c == '\n' || c == '\r')` in the line
comment branch: everything through the first line break (inclusive) is
consumed. -/
def dropThroughNewline : List Char → List Char
  | [] => []
  | c :: cs => if c = '\n' ∨ c = '\r' then cs else dropThroughNewline cs

/-- Rust `consume_token`: one raw token plus the remaining input.  The match
arms appear in source order; arms on overlapping classes (`/` with the comment
guard before the operator arm) keep their order. -/
def consume_token (input : List Char) (generic : Bool) : Token × List Char :=
  match input with
  | [] => (Token.End, [])
  | cur :: rest =>
    if cur = ':' then
      match rest with
      | ':' :: rest2 => (Token.DoubleColon, rest2)
      | _ => (Token.Separator cur, rest)
    else if cur = ';' ∨ cur = ',' then (Token.Separator cur, rest)
    else if cur = '.' then
      match rest with
      | d :: _ => if isDigitChar d then consume_number input else (Token.Separator cur, rest)
      | [] => (Token.Separator cur, rest)
    else if cur = '(' ∨ cur = ')' ∨ cur = '{' ∨ cur = '}' then (Token.Paren cur, rest)
    else if cur = '<' ∨ cur = '>' then
      match rest with
      | d :: rest2 =>
        if d = '=' ∧ generic = false then (Token.LogicalOperation cur, rest2)
        else if d = cur ∧ generic = false then (Token.ShiftOperation cur, rest2)
        else (Token.Paren cur, rest)
      | [] => (Token.Paren cur, rest)
    else if cur = '[' ∨ cur = ']' then
      match rest with
      | d :: rest2 =>
        if d = cur then (Token.DoubleParen cur, rest2) else (Token.Paren cur, rest)
      | [] => (Token.Paren cur, rest)
    else if isDigitChar cur then consume_number input
    else if isWordStart cur then
      let p := consume_any input isWordChar
      (Token.Word p.1, p.2)
    else if cur = quoteChar then
      match splitOnQuote rest with
      | some p => (Token.String p.1, p.2)
      | none => (Token.UnterminatedString, rest)
    else if cur = '/' ∧ rest.head? = some '/' then
      (Token.Trivia, dropThroughNewline rest)
    else if cur = '-' then
      match rest with
      | '>' :: rest2 => (Token.Arrow, rest2)
      | d :: _ =>
        if isDigitChar d ∨ d = '.' then consume_number input else (Token.Operation cur, rest)
      | [] => (Token.Operation cur, rest)
    else if cur = '+' ∨ cur = '*' ∨ cur = '/' ∨ cur = '%' ∨ cur = '^' then
      (Token.Operation cur, rest)
    else if cur = '!' ∨ cur = '~' then
      match rest with
      | '=' :: rest2 => (Token.LogicalOperation cur, rest2)
      | _ => (Token.Operation cur, rest)
    else if cur = '=' ∨ cur = '&' ∨ cur = '|' then
      match rest with
      | d :: rest2 =>
        if d = cur then (Token.LogicalOperation cur, rest2) else (Token.Operation cur, rest)
      | [] => (Token.Operation cur, rest)
    else if isSpaceChar cur then
      (Token.Trivia, (consume_any input isSpaceChar).2)
    else (Token.Unknown cur, rest)

/-- Rust `Lexer<'a>`: the remaining input and the original source slice. -/
structure Lexer where
  input : List Char
  source : List Char
deriving DecidableEq

/-- Rust `Lexer::new`. -/
def Lexer.new (input : List Char) : Lexer :=
  { input := input, source := input }

/-- Rust `Lexer::current_byte_offset` (character offset in this model). -/
def Lexer.current_byte_offset (l : Lexer) : Nat :=
  l.source.length - l.input.length

/-- The trivia-discarding loop shared by `Lexer::next` and
`Lexer::next_generic`, written with explicit fuel.  Each `Trivia` step strictly
shrinks the input (`consume_token_progress`), so fuel `input.length + 1` always
reaches the non-trivia token; the fuel-0 default is unreachable from the
wrappers below. -/
def nextFuel (generic : Bool) : Nat → Lexer → (Token × Nat × Nat) × Lexer
  | 0, l => ((Token.End, l.current_byte_offset, l.current_byte_offset), l)
  | fuel + 1, l =>
    let p := consume_token l.input generic
    let l' : Lexer := { input := p.2, source := l.source }
    if p.1 = Token.Trivia then nextFuel generic fuel l'
    else ((p.1, l.current_byte_offset, l'.current_byte_offset), l')

/-- Rust `Lexer::next`. -/
def Lexer.next (l : Lexer) : (Token × Nat × Nat) × Lexer :=
  nextFuel false (l.input.length + 1) l

/-- Rust `Lexer::next_generic`. -/
def Lexer.next_generic (l : Lexer) : (Token × Nat × Nat) × Lexer :=
  nextFuel true (l.input.length + 1) l

/-- Rust `Lexer::peek_token_and_rest`: run `next` on a clone, hand back the clone's
remaining input; `self` is untouched. -/
def Lexer.peek_token_and_rest (l : Lexer) : (Token × Nat × Nat) × List Char :=
  let cloned := l
  let p := Lexer.next cloned
  (p.1, p.2.input)

/-- Rust `Lexer::peek`.  The returned `Lexer` is the unmodified `self` (the Rust
method takes `&mut self` but only ever advances the clone). -/
def Lexer.peek (l : Lexer) : (Token × Nat × Nat) × Lexer :=
  ((Lexer.peek_token_and_rest l).1, l)

/-- Rust `Lexer::expect_span`. -/
def Lexer.expect_span (l : Lexer) (expected : Token) : Except Error (Nat × Nat) × Lexer :=
  let p := Lexer.next l
  if p.1.1 = expected then (Except.ok p.1.2, p.2)
  else (Except.error (Error.Unexpected p.1 (ExpectedToken.Token expected)), p.2)

/-- Rust `Lexer::expect`. -/
def Lexer.expect (l : Lexer) (expected : Token) : Except Error Unit × Lexer :=
  let p := Lexer.expect_span l expected
  match p.1 with
  | Except.ok _ => (Except.ok (), p.2)
  | Except.error e => (Except.error e, p.2)

/-- Rust `Lexer::expect_generic_paren`. -/
def Lexer.expect_generic_paren (l : Lexer) (expected : Char) : Except Error Unit × Lexer :=
  let p := Lexer.next_generic l
  if p.1.1 = Token.Paren expected then (Except.ok (), p.2)
  else (Except.error (Error.Unexpected p.1 (ExpectedToken.Token (Token.Paren expected))), p.2)

/-- Rust `Lexer::skip`. -/
def Lexer.skip (l : Lexer) (what : Token) : Bool × Lexer :=
  let p := Lexer.peek_token_and_rest l
  if p.1.1 = what then (true, { input := p.2, source := l.source })
  else (false, l)

/-- Rust `Lexer::next_ident_with_span`. -/
def Lexer.next_ident_with_span (l : Lexer) : Except Error (List Char × Nat × Nat) × Lexer :=
  match Lexer.next l with
  | ((Token.Word word, span), l') => (Except.ok (word, span), l')
  | (other, l') => (Except.error (Error.Unexpected other ExpectedToken.Identifier), l')

/-- Rust `Lexer::next_ident`. -/
def Lexer.next_ident (l : Lexer) : Except Error (List Char) × Lexer :=
  match Lexer.next l with
  | ((Token.Word word, _), l') => (Except.ok word, l')
  | (other, l') => (Except.error (Error.Unexpected other ExpectedToken.Identifier), l')

/-- Decimal digit run to a number, `none` if empty or not all digits. -/
def digitsToNat (ds : List Char) : Option Nat :=
  if ds = [] then none
  else if ds.all isDigitChar then
    some (ds.foldl (fun a c => a * 10 + (c.toNat - 48)) 0)
  else none

/-- Rust `str::parse::<u32>`: optional `+` sign, decimal digits, range check.
A leading `-` is rejected for unsigned types. -/
def parseU32 (s : List Char) : Option Nat :=
  match s with
  | '+' :: t => (digitsToNat t).bind (fun v => if v < 4294967296 then some v else none)
  | t => (digitsToNat t).bind (fun v => if v < 4294967296 then some v else none)

/-- Rust `str::parse::<i32>`: optional sign, decimal digits, range check. -/
def parseI32 (s : List Char) : Option Int :=
  match s with
  | '+' :: t => (digitsToNat t).bind (fun v => if v ≤ 2147483647 then some (Int.ofNat v) else none)
  | '-' :: t => (digitsToNat t).bind (fun v => if v ≤ 2147483648 then some (-(Int.ofNat v : Int)) else none)
  | t => (digitsToNat t).bind (fun v => if v ≤ 2147483647 then some (Int.ofNat v) else none)

/-- Rust `Lexer::next_uint_literal`; only the `value` text of the `Number` token is
consulted. -/
def Lexer.next_uint_literal (l : Lexer) : Except Error Nat × Lexer :=
  match Lexer.next l with
  | ((Token.Number value _ _, span), l') =>
    match parseU32 value with
    | some v => (Except.ok v, l')
    | none => (Except.error (Error.BadU32 span), l')
  | (other, l') => (Except.error (Error.Unexpected other ExpectedToken.Uint), l')

/-- Rust `Lexer::next_sint_literal`; only the `value` text of the `Number` token is
consulted. -/
def Lexer.next_sint_literal (l : Lexer) : Except Error Int × Lexer :=
  match Lexer.next l with
  | ((Token.Number value _ _, span), l') =>
    match parseI32 value with
    | some v => (Except.ok v, l')
    | none => (Except.error (Error.BadI32 span), l')
  | (other, l') => (Except.error (Error.Unexpected other ExpectedToken.Sint), l')

/-- Rust `Lexer::next_scalar_generic`, parametrised by the external
`conv::get_scalar_type` lookup (kind and byte-size abstracted as `Nat`). -/
def Lexer.next_scalar_generic (get_scalar_type : List Char → Option (Nat × Nat))
    (l : Lexer) : Except Error (Nat × Nat) × Lexer :=
  match Lexer.expect_generic_paren l '<' with
  | (Except.error e, l1) => (Except.error e, l1)
  | (Except.ok _, l1) =>
    match Lexer.next l1 with
    | ((Token.Word word, span), l2) =>
      match get_scalar_type word with
      | some pair =>
        match Lexer.expect_generic_paren l2 '>' with
        | (Except.error e, l3) => (Except.error e, l3)
        | (Except.ok _, l3) => (Except.ok pair, l3)
      | none => (Except.error (Error.UnknownScalarType span), l2)
    | ((_, span), l2) => (Except.error (Error.UnknownScalarType span), l2)

/-- Rust `Lexer::next_format_generic`, parametrised by the external
`conv::map_storage_format` lookup (the storage format abstracted as `Nat`).
Note: the brackets are read with the plain (non-generic) `expect`. -/
def Lexer.next_format_generic (map_storage_format : List Char → Nat × Nat → Except Error Nat)
    (l : Lexer) : Except Error Nat × Lexer :=
  match Lexer.expect l (Token.Paren '<') with
  | (Except.error e, l1) => (Except.error e, l1)
  | (Except.ok _, l1) =>
    match Lexer.next_ident_with_span l1 with
    | (Except.error e, l2) => (Except.error e, l2)
    | (Except.ok (ident, ident_span), l2) =>
      match map_storage_format ident ident_span with
      | Except.error e => (Except.error e, l2)
      | Except.ok format =>
        match Lexer.expect l2 (Token.Paren '>') with
        | (Except.error e, l3) => (Except.error e, l3)
        | (Except.ok _, l3) => (Except.ok format, l3)

/-- Rust `Lexer::open_arguments`. -/
def Lexer.open_arguments (l : Lexer) : Except Error Unit × Lexer :=
  Lexer.expect l (Token.Paren '(')

/-- Rust `Lexer::close_arguments`. -/
def Lexer.close_arguments (l : Lexer) : Except Error Unit × Lexer :=
  let p := Lexer.skip l (Token.Separator ',')
  Lexer.expect p.2 (Token.Paren ')')

/-- Rust `Lexer::next_argument`. -/
def Lexer.next_argument (l : Lexer) : Except Error Bool × Lexer :=
  let p := Lexer.skip l (Token.Separator ',')
  if p.1 then
    let q := Lexer.skip p.2 (Token.Paren ')')
    (Except.ok (!q.1), q.2)
  else
    match Lexer.expect p.2 (Token.Paren ')') with
    | (Except.ok _, l') => (Except.ok false, l')
    | (Except.error e, l') => (Except.error e, l')

/-- The spec's (section 4.4) reading of the storage-format generic: the "same
bracket pattern" as `next_scalar_generic`, i.e. generic-mode bracket reads.
Modelled from the spec for comparison with the source's
`Lexer.next_format_generic`. -/
def next_format_generic_spec (map_storage_format : List Char → Nat × Nat → Except Error Nat)
    (l : Lexer) : Except Error Nat × Lexer :=
  match Lexer.expect_generic_paren l '<' with
  | (Except.error e, l1) => (Except.error e, l1)
  | (Except.ok _, l1) =>
    match Lexer.next_ident_with_span l1 with
    | (Except.error e, l2) => (Except.error e, l2)
    | (Except.ok (ident, ident_span), l2) =>
      match map_storage_format ident ident_span with
      | Except.error e => (Except.error e, l2)
      | Except.ok format =>
        match Lexer.expect_generic_paren l2 '>' with
        | (Except.error e, l3) => (Except.error e, l3)
        | (Except.ok _, l3) => (Except.ok format, l3)

/-- A concrete storage-format lookup used to instantiate the parametric
helpers at concrete inputs: maps the identifier `x` to format `7`. -/
def xFormatLookup : List Char → Nat × Nat → Except Error Nat :=
  fun w span => if w = ['x'] then Except.ok 7 else Except.error (Error.BadStorageFormat span)

/-- A concrete scalar-type lookup used to instantiate the parametric helpers
at concrete inputs: maps the identifier `x` to kind `2`, width `4`. -/
def xScalarLookup : List Char → Option (Nat × Nat) :=
  fun w => if w = ['x'] then some (2, 4) else none

/-- Relation: `l'` is a state the cursor can legally reach from `l`: the source is
unchanged and the remaining input is a suffix of it. -/
def advances (l l' : Lexer) : Prop :=
  l'.source = l.source ∧ l'.input <:+ l.source

theorem suffix_cons2 (a b : Char) (l : List Char) : l <:+ a :: b :: l :=
  (List.suffix_cons b l).trans (List.suffix_cons a (b :: l))

theorem scanCore_append (f e : Bool) (l : List Char) :
    (scanCore f e l).1 ++ (scanCore f e l).2 = l := by
  induction l generalizing f e with
  | nil => rfl
  | cons c cs ih =>
    simp only [scanCore]
    split
    · simp [ih]
    · rfl

theorem scanCore_suffix (f e : Bool) (l : List Char) : (scanCore f e l).2 <:+ l :=
  ⟨(scanCore f e l).1, scanCore_append f e l⟩

theorem scanCore_cons_of_accept (f e : Bool) (c : Char) (cs : List Char)
    (h : (numStep f e c).1 = true) :
    (scanCore f e (c :: cs)).2.length ≤ cs.length := by
  have hle := (scanCore_suffix (numStep f e c).2.1 (numStep f e c).2.2 cs).length_le
  simp only [scanCore, h]
  simpa using hle

theorem consume_number_rest_suffix (input : List Char) :
    (consume_number input).2 <:+ (scanCore true false input).2 := by
  simp only [consume_number]
  split
  · next ty rest1 heq =>
    split
    · rw [heq]
      exact (List.drop_suffix _ rest1).trans (List.suffix_cons ty rest1)
    · rw [heq]
  · next heq => rw [heq]

theorem consume_number_suffix (input : List Char) : (consume_number input).2 <:+ input :=
  (consume_number_rest_suffix input).trans (scanCore_suffix true false input)

theorem consume_number_shrink (c : Char) (cs : List Char) (h : (numStep true false c).1 = true) :
    (consume_number (c :: cs)).2.length ≤ cs.length :=
  le_trans (consume_number_rest_suffix _).length_le (scanCore_cons_of_accept true false c cs h)

theorem consume_number_fst (input : List Char) :
    (consume_number input).1 ≠ Token.End ∧ (consume_number input).1 ≠ Token.Trivia := by
  simp only [consume_number]
  split
  · split <;> simp
  · simp

theorem splitOnQuote_eq_some (l : List Char) :
    ∀ a b, splitOnQuote l = some (a, b) → a ++ quoteChar :: b = l := by
  induction l with
  | nil => intro a b h; simp [splitOnQuote] at h
  | cons c cs ih =>
    intro a b h
    simp only [splitOnQuote] at h
    by_cases hc : c = quoteChar
    · rw [if_pos hc] at h
      simp only [Option.some.injEq, Prod.mk.injEq] at h
      obtain ⟨rfl, rfl⟩ := h
      simp [hc]
    · rw [if_neg hc] at h
      rcases heq : splitOnQuote cs with _ | p
      · rw [heq] at h; exact absurd h (by simp)
      · rw [heq] at h
        simp only [Option.some.injEq, Prod.mk.injEq] at h
        obtain ⟨rfl, rfl⟩ := h
        have hcs := ih p.1 p.2 heq
        simp [hcs]

theorem splitOnQuote_none (l : List Char) (h : quoteChar ∉ l) : splitOnQuote l = none := by
  induction l with
  | nil => rfl
  | cons c cs ih =>
    simp only [splitOnQuote]
    rw [if_neg (fun hc => h (by simp [hc])), ih (fun hm => h (List.mem_cons_of_mem c hm))]

theorem dropThroughNewline_suffix (l : List Char) : dropThroughNewline l <:+ l := by
  induction l with
  | nil => exact List.suffix_refl []
  | cons c cs ih =>
    simp only [dropThroughNewline]
    split
    · exact List.suffix_cons c cs
    · exact ih.trans (List.suffix_cons c cs)

theorem isWordChar_of_isWordStart (c : Char) (h : isWordStart c = true) : isWordChar c = true := by
  simp only [isWordStart, isWordChar, Bool.or_eq_true, decide_eq_true_eq, beq_iff_eq] at h ⊢
  tauto

theorem length_dropWhile_le (p : Char → Bool) (l : List Char) :
    (l.dropWhile p).length ≤ l.length :=
  (List.dropWhile_suffix p).length_le

theorem length_dropThroughNewline_le (l : List Char) :
    (dropThroughNewline l).length ≤ l.length :=
  (dropThroughNewline_suffix l).length_le

theorem consume_number_fst_ne_end (input : List Char) :
    ¬(consume_number input).1 = Token.End :=
  (consume_number_fst input).1

theorem consume_number_fst_ne_trivia (input : List Char) :
    ¬(consume_number input).1 = Token.Trivia :=
  (consume_number_fst input).2

theorem le_len_cons (d : Char) (l : List Char) : l.length ≤ (d :: l).length := by
  simp [Nat.le_succ]

theorem consume_token_main (cur : Char) (rest : List Char) (g : Bool) :
    (consume_token (cur :: rest) g).2 <:+ cur :: rest
  ∧ (consume_token (cur :: rest) g).2.length ≤ rest.length
  ∧ (consume_token (cur :: rest) g).1 ≠ Token.End := by
  simp only [consume_token]
  by_cases h1 : cur = ':'
  · rw [if_pos h1]
    split
    · exact ⟨suffix_cons2 _ _ _, le_len_cons _ _, by simp⟩
    · exact ⟨List.suffix_cons _ _, le_rfl, by simp⟩
  rw [if_neg h1]
  by_cases h2 : cur = ';' ∨ cur = ','
  · rw [if_pos h2]
    exact ⟨List.suffix_cons _ _, le_rfl, by simp⟩
  rw [if_neg h2]
  by_cases h3 : cur = '.'
  · rw [if_pos h3]
    split
    · next d tail =>
      by_cases hd : isDigitChar d = true
      · rw [if_pos hd]
        refine ⟨consume_number_suffix _, consume_number_shrink _ _ ?_, consume_number_fst_ne_end _⟩
        rw [h3]; decide
      · rw [if_neg hd]
        exact ⟨List.suffix_cons _ _, le_rfl, by simp⟩
    · exact ⟨List.suffix_cons _ _, le_rfl, by simp⟩
  rw [if_neg h3]
  by_cases h4 : cur = '(' ∨ cur = ')' ∨ cur = '{' ∨ cur = '}'
  · rw [if_pos h4]
    exact ⟨List.suffix_cons _ _, le_rfl, by simp⟩
  rw [if_neg h4]
  by_cases h5 : cur = '<' ∨ cur = '>'
  · rw [if_pos h5]
    split
    · next d rest2 =>
      by_cases hd1 : d = '=' ∧ g = false
      · rw [if_pos hd1]
        exact ⟨suffix_cons2 _ _ _, le_len_cons _ _, by simp⟩
      rw [if_neg hd1]
      by_cases hd2 : d = cur ∧ g = false
      · rw [if_pos hd2]
        exact ⟨suffix_cons2 _ _ _, le_len_cons _ _, by simp⟩
      rw [if_neg hd2]
      exact ⟨List.suffix_cons _ _, le_rfl, by simp⟩
    · exact ⟨List.suffix_cons _ _, le_rfl, by simp⟩
  rw [if_neg h5]
  by_cases h6 : cur = '[' ∨ cur = ']'
  · rw [if_pos h6]
    split
    · next d rest2 =>
      by_cases hd : d = cur
      · rw [if_pos hd]
        exact ⟨suffix_cons2 _ _ _, le_len_cons _ _, by simp⟩
      · rw [if_neg hd]
        exact ⟨List.suffix_cons _ _, le_rfl, by simp⟩
    · exact ⟨List.suffix_cons _ _, le_rfl, by simp⟩
  rw [if_neg h6]
  by_cases h7 : isDigitChar cur = true
  · rw [if_pos h7]
    refine ⟨consume_number_suffix _, consume_number_shrink _ _ ?_, consume_number_fst_ne_end _⟩
    simp [numStep, h7]
  rw [if_neg h7]
  by_cases h8 : isWordStart cur = true
  · rw [if_pos h8]
    have hwc : isWordChar cur = true := isWordChar_of_isWordStart cur h8
    refine ⟨List.dropWhile_suffix _, ?_, by simp⟩
    show (List.dropWhile isWordChar (cur :: rest)).length ≤ rest.length
    rw [List.dropWhile_cons, if_pos hwc]
    exact length_dropWhile_le _ _
  rw [if_neg h8]
  by_cases h9 : cur = quoteChar
  · rw [if_pos h9]
    split
    · next p heq =>
      have hpq := splitOnQuote_eq_some rest p.1 p.2 heq
      have hlen := congrArg List.length hpq
      simp only [List.length_append, List.length_cons] at hlen
      have hp : p.2 <:+ rest := ⟨p.1 ++ [quoteChar], by simpa using hpq⟩
      refine ⟨hp.trans (List.suffix_cons _ _), ?_, by simp⟩
      show p.2.length ≤ rest.length
      omega
    · exact ⟨List.suffix_cons _ _, le_rfl, by simp⟩
  rw [if_neg h9]
  by_cases h10 : cur = '/' ∧ rest.head? = some '/'
  · rw [if_pos h10]
    exact ⟨(dropThroughNewline_suffix rest).trans (List.suffix_cons _ _),
      length_dropThroughNewline_le rest, by simp⟩
  rw [if_neg h10]
  by_cases h11 : cur = '-'
  · rw [if_pos h11]
    split
    · exact ⟨suffix_cons2 _ _ _, le_len_cons _ _, by simp⟩
    · split_ifs with hd
      · refine ⟨consume_number_suffix _, consume_number_shrink _ _ ?_, consume_number_fst_ne_end _⟩
        rw [h11]; decide
      · exact ⟨List.suffix_cons _ _, le_rfl, by simp⟩
    · exact ⟨List.suffix_cons _ _, le_rfl, by simp⟩
  rw [if_neg h11]
  by_cases h12 : cur = '+' ∨ cur = '*' ∨ cur = '/' ∨ cur = '%' ∨ cur = '^'
  · rw [if_pos h12]
    exact ⟨List.suffix_cons _ _, le_rfl, by simp⟩
  rw [if_neg h12]
  by_cases h13 : cur = '!' ∨ cur = '~'
  · rw [if_pos h13]
    split
    · exact ⟨suffix_cons2 _ _ _, le_len_cons _ _, by simp⟩
    · exact ⟨List.suffix_cons _ _, le_rfl, by simp⟩
  rw [if_neg h13]
  by_cases h14 : cur = '=' ∨ cur = '&' ∨ cur = '|'
  · rw [if_pos h14]
    split
    · next d rest2 =>
      by_cases hd : d = cur
      · rw [if_pos hd]
        exact ⟨suffix_cons2 _ _ _, le_len_cons _ _, by simp⟩
      · rw [if_neg hd]
        exact ⟨List.suffix_cons _ _, le_rfl, by simp⟩
    · exact ⟨List.suffix_cons _ _, le_rfl, by simp⟩
  rw [if_neg h14]
  by_cases h15 : isSpaceChar cur = true
  · rw [if_pos h15]
    refine ⟨?_, ?_, by simp⟩
    · show (consume_any (cur :: rest) isSpaceChar).2 <:+ cur :: rest
      exact List.dropWhile_suffix _
    · show (consume_any (cur :: rest) isSpaceChar).2.length ≤ rest.length
      show (List.dropWhile isSpaceChar (cur :: rest)).length ≤ rest.length
      rw [List.dropWhile_cons, if_pos h15]
      exact length_dropWhile_le _ _
  rw [if_neg h15]
  exact ⟨List.suffix_cons _ _, le_rfl, by simp⟩

theorem consume_token_suffix (input : List Char) (g : Bool) :
    (consume_token input g).2 <:+ input := by
  cases input with
  | nil => exact List.suffix_refl _
  | cons cur rest => exact (consume_token_main cur rest g).1

theorem consume_token_end_iff (input : List Char) (g : Bool) :
    (consume_token input g).1 = Token.End ↔ input = [] := by
  cases input with
  | nil => simp [consume_token]
  | cons cur rest => simp [(consume_token_main cur rest g).2.2]

theorem consume_token_shrink (cur : Char) (rest : List Char) (g : Bool) :
    (consume_token (cur :: rest) g).2.length ≤ rest.length :=
  (consume_token_main cur rest g).2.1

theorem consume_token_trivia_lt (input : List Char) (g : Bool)
    (h : (consume_token input g).1 = Token.Trivia) :
    (consume_token input g).2.length < input.length := by
  cases input with
  | nil => exact absurd h (by simp [consume_token])
  | cons cur rest =>
    have := consume_token_shrink cur rest g
    simp only [List.length_cons]
    omega

theorem consume_token_zero_consumption (input : List Char) (g : Bool)
    (h : (consume_token input g).2 = input) :
    (consume_token input g).1 = Token.End ∧ input = [] := by
  cases input with
  | nil => exact ⟨rfl, rfl⟩
  | cons cur rest =>
    have hlen := consume_token_shrink cur rest g
    rw [h] at hlen
    simp only [List.length_cons] at hlen
    omega

theorem lexer_eq (a b : Lexer) (h1 : a.input = b.input) (h2 : a.source = b.source) : a = b := by
  cases a; cases b; simp_all

theorem nextFuel_succ (g : Bool) (fuel : Nat) (l : Lexer) :
    nextFuel g (fuel + 1) l =
      (if (consume_token l.input g).1 = Token.Trivia then
        nextFuel g fuel { input := (consume_token l.input g).2, source := l.source }
      else (((consume_token l.input g).1, l.current_byte_offset,
          (Lexer.mk (consume_token l.input g).2 l.source).current_byte_offset),
        { input := (consume_token l.input g).2, source := l.source })) := rfl

theorem nextFuel_source (g : Bool) : ∀ (fuel : Nat) (l : Lexer),
    (nextFuel g fuel l).2.source = l.source := by
  intro fuel
  induction fuel with
  | zero => intro l; rfl
  | succ n ih =>
    intro l
    rw [nextFuel_succ]
    split
    · exact ih _
    · rfl

theorem nextFuel_suffix (g : Bool) : ∀ (fuel : Nat) (l : Lexer),
    (nextFuel g fuel l).2.input <:+ l.input := by
  intro fuel
  induction fuel with
  | zero => intro l; exact List.suffix_refl _
  | succ n ih =>
    intro l
    rw [nextFuel_succ]
    split
    · exact (ih _).trans (consume_token_suffix l.input g)
    · exact consume_token_suffix l.input g

theorem nextFuel_congr (g : Bool) : ∀ (f1 : Nat) (l : Lexer) (f2 : Nat),
    l.input.length < f1 → l.input.length < f2 → nextFuel g f1 l = nextFuel g f2 l := by
  intro f1
  induction f1 with
  | zero => intro l f2 h1 _; omega
  | succ n ih =>
    intro l f2 h1 h2
    obtain ⟨f2', rfl⟩ : ∃ k, f2 = k + 1 := ⟨f2 - 1, by omega⟩
    rw [nextFuel_succ g n l, nextFuel_succ g f2' l]
    split
    · next ht =>
      have hlt := consume_token_trivia_lt l.input g ht
      have hproj : ({ input := (consume_token l.input g).2, source := l.source } : Lexer).input
          = (consume_token l.input g).2 := rfl
      refine ih _ _ ?_ ?_ <;> rw [hproj] <;> omega
    · rfl

theorem nextFuel_end (g : Bool) : ∀ (fuel : Nat) (l : Lexer), l.input.length < fuel →
    (nextFuel g fuel l).1.1 = Token.End → (nextFuel g fuel l).2.input = [] := by
  intro fuel
  induction fuel with
  | zero => intro l h; omega
  | succ n ih =>
    intro l h
    rw [nextFuel_succ]
    split
    · next ht =>
      have hlt := consume_token_trivia_lt l.input g ht
      have hproj : ({ input := (consume_token l.input g).2, source := l.source } : Lexer).input
          = (consume_token l.input g).2 := rfl
      refine ih _ ?_
      rw [hproj]; omega
    · next ht =>
      intro hEnd
      have hnil : l.input = [] := (consume_token_end_iff l.input g).1 hEnd
      show (consume_token l.input g).2 = []
      rw [hnil]
      rfl

theorem nextFuel_step (g : Bool) (l : Lexer) (t : Token) (r : List Char)
    (h : consume_token l.input g = (t, r)) (ht : t ≠ Token.Trivia) :
    nextFuel g (l.input.length + 1) l =
      ((t, l.source.length - l.input.length, l.source.length - r.length),
        { input := r, source := l.source }) := by
  rw [nextFuel_succ, h]
  rw [if_neg ht]
  rfl

theorem Lexer.next_eq (l : Lexer) (t : Token) (r : List Char)
    (h : consume_token l.input false = (t, r)) (ht : t ≠ Token.Trivia) :
    Lexer.next l =
      ((t, l.source.length - l.input.length, l.source.length - r.length),
        { input := r, source := l.source }) :=
  nextFuel_step false l t r h ht

theorem Lexer.next_generic_eq (l : Lexer) (t : Token) (r : List Char)
    (h : consume_token l.input true = (t, r)) (ht : t ≠ Token.Trivia) :
    Lexer.next_generic l =
      ((t, l.source.length - l.input.length, l.source.length - r.length),
        { input := r, source := l.source }) :=
  nextFuel_step true l t r h ht

theorem next_state_source (l : Lexer) : (Lexer.next l).2.source = l.source :=
  nextFuel_source false _ l

theorem next_generic_state_source (l : Lexer) : (Lexer.next_generic l).2.source = l.source :=
  nextFuel_source true _ l

theorem advances_rfl (l : Lexer) (h : l.input <:+ l.source) : advances l l := ⟨rfl, h⟩

theorem advances_trans {l l1 l2 : Lexer} (h1 : advances l l1) (h2 : advances l1 l2) :
    advances l l2 := ⟨by rw [h2.1, h1.1], by have h3 := h2.2; rw [h1.1] at h3; exact h3⟩

theorem advances_wf {l l1 : Lexer} (h : advances l l1) : l1.input <:+ l1.source := by
  rw [h.1]; exact h.2

theorem advances_of_next (l : Lexer) (h : l.input <:+ l.source) :
    advances l (Lexer.next l).2 :=
  ⟨nextFuel_source false _ l, (nextFuel_suffix false _ l).trans h⟩

theorem advances_of_next_generic (l : Lexer) (h : l.input <:+ l.source) :
    advances l (Lexer.next_generic l).2 :=
  ⟨nextFuel_source true _ l, (nextFuel_suffix true _ l).trans h⟩

theorem peek_state (l : Lexer) : (Lexer.peek l).2 = l := rfl

theorem expect_span_state (l : Lexer) (t : Token) :
    (Lexer.expect_span l t).2 = (Lexer.next l).2 := by
  simp only [Lexer.expect_span]
  split <;> rfl

theorem expect_state (l : Lexer) (t : Token) :
    (Lexer.expect l t).2 = (Lexer.next l).2 := by
  simp only [Lexer.expect]
  split <;> exact expect_span_state l t

theorem expect_generic_paren_state (l : Lexer) (c : Char) :
    (Lexer.expect_generic_paren l c).2 = (Lexer.next_generic l).2 := by
  simp only [Lexer.expect_generic_paren]
  split <;> rfl

theorem skip_state (l : Lexer) (t : Token) :
    (Lexer.skip l t).2 = (Lexer.next l).2 ∨ (Lexer.skip l t).2 = l := by
  simp only [Lexer.skip, Lexer.peek_token_and_rest]
  split
  · left
    exact lexer_eq _ _ rfl (next_state_source l).symm
  · right; rfl

theorem advances_of_skip (l : Lexer) (t : Token) (h : l.input <:+ l.source) :
    advances l (Lexer.skip l t).2 := by
  rcases skip_state l t with hs | hs <;> rw [hs]
  · exact advances_of_next l h
  · exact advances_rfl l h

theorem next_ident_with_span_state (l : Lexer) :
    (Lexer.next_ident_with_span l).2 = (Lexer.next l).2 := by
  simp only [Lexer.next_ident_with_span]
  split <;> simp_all

theorem next_ident_state (l : Lexer) :
    (Lexer.next_ident l).2 = (Lexer.next l).2 := by
  simp only [Lexer.next_ident]
  split <;> simp_all

theorem next_uint_literal_state (l : Lexer) :
    (Lexer.next_uint_literal l).2 = (Lexer.next l).2 := by
  simp only [Lexer.next_uint_literal]
  split
  · split <;> simp_all
  · simp_all

theorem next_sint_literal_state (l : Lexer) :
    (Lexer.next_sint_literal l).2 = (Lexer.next l).2 := by
  simp only [Lexer.next_sint_literal]
  split
  · split <;> simp_all
  · simp_all

theorem advances_of_expect_span (l : Lexer) (t : Token) (h : l.input <:+ l.source) :
    advances l (Lexer.expect_span l t).2 := by
  rw [expect_span_state]; exact advances_of_next l h

theorem advances_of_expect (l : Lexer) (t : Token) (h : l.input <:+ l.source) :
    advances l (Lexer.expect l t).2 := by
  rw [expect_state]; exact advances_of_next l h

theorem advances_of_expect_generic_paren (l : Lexer) (c : Char) (h : l.input <:+ l.source) :
    advances l (Lexer.expect_generic_paren l c).2 := by
  rw [expect_generic_paren_state]; exact advances_of_next_generic l h

theorem advances_of_next_ident_with_span (l : Lexer) (h : l.input <:+ l.source) :
    advances l (Lexer.next_ident_with_span l).2 := by
  rw [next_ident_with_span_state]; exact advances_of_next l h

theorem advances_of_next_scalar_generic (lk : List Char → Option (Nat × Nat)) (l : Lexer)
    (h : l.input <:+ l.source) : advances l (Lexer.next_scalar_generic lk l).2 := by
  have a1 : advances l (Lexer.expect_generic_paren l '<').2 :=
    advances_of_expect_generic_paren l '<' h
  simp only [Lexer.next_scalar_generic]
  split
  · next e l1 heq => rw [heq] at a1; exact a1
  · next u l1 heq =>
    rw [heq] at a1
    have a2 : advances l1 (Lexer.next l1).2 := advances_of_next l1 (advances_wf a1)
    split
    · next word span l2 heq2 =>
      rw [heq2] at a2
      split
      · next pair heq3 =>
        have a3 : advances l2 (Lexer.expect_generic_paren l2 '>').2 :=
          advances_of_expect_generic_paren l2 '>' (advances_wf (advances_trans a1 a2))
        split
        · next e l3 heq4 => rw [heq4] at a3; exact advances_trans a1 (advances_trans a2 a3)
        · next u2 l3 heq4 => rw [heq4] at a3; exact advances_trans a1 (advances_trans a2 a3)
      · exact advances_trans a1 a2
    · next other l2 heq2 => rw [heq2] at a2; exact advances_trans a1 a2

theorem advances_of_next_format_generic (lk : List Char → Nat × Nat → Except Error Nat)
    (l : Lexer) (h : l.input <:+ l.source) : advances l (Lexer.next_format_generic lk l).2 := by
  have a1 : advances l (Lexer.expect l (Token.Paren '<')).2 :=
    advances_of_expect l (Token.Paren '<') h
  simp only [Lexer.next_format_generic]
  split
  · next e l1 heq => rw [heq] at a1; exact a1
  · next u l1 heq =>
    rw [heq] at a1
    have a2 : advances l1 (Lexer.next_ident_with_span l1).2 :=
      advances_of_next_ident_with_span l1 (advances_wf a1)
    split
    · next e l2 heq2 => rw [heq2] at a2; exact advances_trans a1 a2
    · next ident ident_span l2 heq2 =>
      rw [heq2] at a2
      split
      · exact advances_trans a1 a2
      · next fmt heq3 =>
        have a3 : advances l2 (Lexer.expect l2 (Token.Paren '>')).2 :=
          advances_of_expect l2 (Token.Paren '>') (advances_wf (advances_trans a1 a2))
        split
        · next e l3 heq4 => rw [heq4] at a3; exact advances_trans a1 (advances_trans a2 a3)
        · next u2 l3 heq4 => rw [heq4] at a3; exact advances_trans a1 (advances_trans a2 a3)

theorem advances_of_close_arguments (l : Lexer) (h : l.input <:+ l.source) :
    advances l (Lexer.close_arguments l).2 := by
  have a1 : advances l (Lexer.skip l (Token.Separator ',')).2 :=
    advances_of_skip l (Token.Separator ',') h
  exact advances_trans a1
    (advances_of_expect (Lexer.skip l (Token.Separator ',')).2 (Token.Paren ')')
      (advances_wf a1))

theorem advances_of_next_argument (l : Lexer) (h : l.input <:+ l.source) :
    advances l (Lexer.next_argument l).2 := by
  have a1 : advances l (Lexer.skip l (Token.Separator ',')).2 :=
    advances_of_skip l (Token.Separator ',') h
  simp only [Lexer.next_argument]
  split
  · exact advances_trans a1
      (advances_of_skip (Lexer.skip l (Token.Separator ',')).2 (Token.Paren ')')
        (advances_wf a1))
  · have a2 : advances l (Lexer.expect (Lexer.skip l (Token.Separator ',')).2 (Token.Paren ')')).2 :=
      advances_trans a1
        (advances_of_expect (Lexer.skip l (Token.Separator ',')).2 (Token.Paren ')')
          (advances_wf a1))
    split
    · next u l' heq => rw [heq] at a2; exact a2
    · next e l' heq => rw [heq] at a2; exact a2

theorem consume_token_generic_angle (c : Char) (rest : List Char) (h : c = '<' ∨ c = '>') :
    consume_token (c :: rest) true = (Token.Paren c, rest) := by
  rcases h with rfl | rfl <;> cases rest <;> simp [consume_token]

theorem consume_token_shift (c : Char) (rest : List Char) (h : c = '<' ∨ c = '>') :
    consume_token (c :: c :: rest) false = (Token.ShiftOperation c, rest) := by
  rcases h with rfl | rfl <;> simp [consume_token]

theorem consume_token_angle_paren (c d2 : Char) (rest : List Char) (h : c = '<' ∨ c = '>')
    (hd1 : d2 ≠ '=') (hd2 : d2 ≠ c) (g : Bool) :
    consume_token (c :: d2 :: rest) g = (Token.Paren c, d2 :: rest) := by
  rcases h with rfl | rfl <;> cases g <;> simp [consume_token, hd1, hd2]

theorem not_digit_of_isWordStart (c : Char) (h : isWordStart c = true) :
    isDigitChar c = false := by
  simp only [isWordStart, Bool.or_eq_true, decide_eq_true_eq, beq_iff_eq] at h
  simp only [isDigitChar, decide_eq_false_iff_not, not_and]
  rcases h with (h1 | h1) | h1
  · intro _ hd2
    exact absurd (le_trans h1.1 hd2) (by decide)
  · intro _ hd2
    exact absurd (le_trans h1.1 hd2) (by decide)
  · subst h1; decide

theorem takeWhile_all_append (p : Char → Bool) : ∀ (w rest : List Char),
    (∀ x ∈ w, p x = true) →
    (w ++ rest).takeWhile p = w ++ rest.takeWhile p
  ∧ (w ++ rest).dropWhile p = rest.dropWhile p := by
  intro w
  induction w with
  | nil => intro rest _; simp
  | cons a w ihw =>
    intro rest h
    have ha : p a = true := h a (by simp)
    have ih := ihw rest (fun x hx => h x (by simp [hx]))
    simp [List.takeWhile_cons, List.dropWhile_cons, ha, ih.1, ih.2]

theorem consume_token_word (c : Char) (w rest : List Char) (g : Bool)
    (hc : isWordStart c = true) (hw : ∀ x ∈ w, isWordChar x = true)
    (hr : ∀ x, rest.head? = some x → isWordChar x = false) :
    consume_token (c :: (w ++ rest)) g = (Token.Word (c :: w), rest) := by
  have hwc : isWordChar c = true := isWordChar_of_isWordStart c hc
  have hnd : isDigitChar c = false := not_digit_of_isWordStart c hc
  simp only [consume_token]
  rw [if_neg (by rintro rfl; exact absurd hc (by decide))]
  rw [if_neg (by rintro (rfl | rfl) <;> exact absurd hc (by decide))]
  rw [if_neg (by rintro rfl; exact absurd hc (by decide))]
  rw [if_neg (by rintro (rfl | rfl | rfl | rfl) <;> exact absurd hc (by decide))]
  rw [if_neg (by rintro (rfl | rfl) <;> exact absurd hc (by decide))]
  rw [if_neg (by rintro (rfl | rfl) <;> exact absurd hc (by decide))]
  rw [if_neg (by simp [hnd])]
  rw [if_pos hc]
  have ht := takeWhile_all_append isWordChar w rest hw
  have hrt : rest.takeWhile isWordChar = [] ∧ rest.dropWhile isWordChar = rest := by
    cases rest with
    | nil => simp
    | cons x xs =>
      have hx := hr x rfl
      simp [List.takeWhile_cons, List.dropWhile_cons, hx]
  simp [consume_any, List.takeWhile_cons, List.dropWhile_cons, hwc, ht.1, ht.2, hrt.1, hrt.2]

theorem positionOf_take_drop (l : List Char) :
    l.take (match positionOf (fun c => !(isDigitChar c)) l with
      | some k => k
      | none => l.length) = l.takeWhile isDigitChar
  ∧ l.drop (match positionOf (fun c => !(isDigitChar c)) l with
      | some k => k
      | none => l.length) = l.dropWhile isDigitChar := by
  induction l with
  | nil => simp [positionOf]
  | cons c t ih =>
    by_cases hc : isDigitChar c = true
    · simp only [positionOf, hc, Bool.not_true, if_neg (by simp : ¬((false : Bool) = true))]
      rcases hpos : positionOf (fun c => !(isDigitChar c)) t with _ | k <;>
        rw [hpos] at ih <;> simp only [hpos, Option.map] <;>
        simp [List.takeWhile_cons, List.dropWhile_cons, hc, ih.1, ih.2, List.take_succ_cons,
          List.drop_succ_cons]
    · have hc2 : isDigitChar c = false := by simp [Bool.not_eq_true] at hc; exact hc
      simp only [positionOf, hc2, Bool.not_false, if_pos rfl]
      simp [List.takeWhile_cons, List.dropWhile_cons, hc2]

theorem consume_number_tag (input : List Char) (ty : Char) (value rest1 : List Char)
    (hcore : scanCore true false input = (value, ty :: rest1))
    (hty : ty = 'u' ∨ ty = 'i' ∨ ty = 'f') :
    consume_number input = (Token.Number value ty (rest1.takeWhile isDigitChar),
      rest1.dropWhile isDigitChar) := by
  simp only [consume_number, hcore]
  rw [if_pos hty]
  have hlen : (ty :: rest1).length - 1 = rest1.length := by simp
  rw [hlen]
  rw [(positionOf_take_drop rest1).1, (positionOf_take_drop rest1).2]

theorem consume_number_default (input : List Char) (value rest : List Char)
    (hcore : scanCore true false input = (value, rest))
    (hty : ∀ ty rest1, rest = ty :: rest1 → ¬(ty = 'u' ∨ ty = 'i' ∨ ty = 'f')) :
    consume_number input =
      (Token.Number value (if value.contains '.' then 'f' else 'i') [], rest) := by
  simp only [consume_number, hcore]
  rcases rest with _ | ⟨ty, rest1⟩
  · rfl
  · simp [hty ty rest1 rfl]

theorem expect_of_next (l : Lexer) (t : Token) (sp : Nat × Nat) (l' : Lexer)
    (h : Lexer.next l = ((t, sp), l')) :
    Lexer.expect l t = (Except.ok (), l') := by
  simp [Lexer.expect, Lexer.expect_span, h]

theorem expect_of_next_ne (l : Lexer) (t : Token) (ts : Token × Nat × Nat) (l' : Lexer)
    (h : Lexer.next l = (ts, l')) (hne : ts.1 ≠ t) :
    Lexer.expect l t = (Except.error (Error.Unexpected ts (ExpectedToken.Token t)), l') := by
  simp [Lexer.expect, Lexer.expect_span, h, hne]

theorem expect_generic_of_next (l : Lexer) (ch : Char) (sp : Nat × Nat) (l' : Lexer)
    (h : Lexer.next_generic l = ((Token.Paren ch, sp), l')) :
    Lexer.expect_generic_paren l ch = (Except.ok (), l') := by
  simp [Lexer.expect_generic_paren, h]

theorem next_ident_with_span_of_next (l : Lexer) (w : List Char) (sp : Nat × Nat) (l' : Lexer)
    (h : Lexer.next l = ((Token.Word w, sp), l')) :
    Lexer.next_ident_with_span l = (Except.ok (w, sp), l') := by
  simp only [Lexer.next_ident_with_span, h]

/-- C1: for every input slice beginning with `<` or `>`, the raw scanner in
generic mode returns a one-character `Paren` token of that character (never a
`ShiftOperation` or `LogicalOperation`); scanning text starting with `>>` in
generic mode yields two consecutive `Paren '>'` tokens, while the same text in
non-generic mode yields one `ShiftOperation '>'`. -/
theorem claim_c1 (c : Char) (rest t : List Char) (h : c = '<' ∨ c = '>') :
    consume_token (c :: rest) true = (Token.Paren c, rest)
  ∧ consume_token ('>' :: '>' :: t) true = (Token.Paren '>', '>' :: t)
  ∧ consume_token ('>' :: t) true = (Token.Paren '>', t)
  ∧ consume_token ('>' :: '>' :: t) false = (Token.ShiftOperation '>', t) :=
  ⟨consume_token_generic_angle c rest h,
    consume_token_generic_angle '>' ('>' :: t) (Or.inr rfl),
    consume_token_generic_angle '>' t (Or.inr rfl),
    consume_token_shift '>' t (Or.inr rfl)⟩

/-- Witness for C1 at `c = '>'`, rest `['=']`. -/
theorem claim_c1_witness :
    (('>' : Char) = '<' ∨ ('>' : Char) = '>')
  ∧ consume_token ['>', '='] true = (Token.Paren '>', ['=']) :=
  ⟨Or.inr rfl, (claim_c1 '>' ['='] [] (Or.inr rfl)).1⟩

/-- C3 counterexample: on the input `"abc` (opening quote, no closing quote)
the scanner does not leave an empty remaining input; the remaining input it
returns is the content after the quote, and the `UnterminatedString` token
carries no payload. -/
theorem claim_c3_counterexample :
    consume_token (quoteChar :: ['a', 'b', 'c']) false = (Token.UnterminatedString, ['a', 'b', 'c'])
  ∧ (consume_token (quoteChar :: ['a', 'b', 'c']) false).2 ≠ [] :=
  ⟨rfl, by decide⟩

/-- C3 (amended): for every input beginning with a double quote and containing
no second double quote, the raw scanner returns the payload-free
`UnterminatedString` token, and the remaining input it returns is the content
from after the quote to the end of input (not the empty slice). -/
theorem claim_c3 (rest : List Char) (g : Bool) (h : quoteChar ∉ rest) :
    consume_token (quoteChar :: rest) g = (Token.UnterminatedString, rest) := by
  have hq := splitOnQuote_none rest h
  simp only [consume_token]
  rw [if_neg (by decide), if_neg (by decide), if_neg (by decide), if_neg (by decide),
    if_neg (by decide), if_neg (by decide), if_neg (by decide), if_neg (by decide)]
  simp only [if_true, hq]

/-- Witness for C3 (amended) at input `"abc`. -/
theorem claim_c3_witness :
    quoteChar ∉ (['a', 'b', 'c'] : List Char)
  ∧ consume_token (quoteChar :: ['a', 'b', 'c']) false = (Token.UnterminatedString, ['a', 'b', 'c']) :=
  ⟨by decide, claim_c3 ['a', 'b', 'c'] false (by decide)⟩

/-- C5: the cursor read terminates: a `Trivia` result always consumes at least
one character; a read that consumes nothing is `End` on empty input; the
trivia-discarding loop is insensitive to any sufficient fuel bound (so the
loop reaches its result); and once a read returns `End` the state has empty
input and all subsequent reads (either mode) return `End` again. -/
theorem claim_c5 (input : List Char) (g : Bool) (l : Lexer) (fuel : Nat)
    (hf : l.input.length < fuel) :
    ((consume_token input g).1 = Token.Trivia → (consume_token input g).2.length < input.length)
  ∧ ((consume_token input g).2 = input → (consume_token input g).1 = Token.End ∧ input = [])
  ∧ nextFuel g fuel l = (if g then Lexer.next_generic l else Lexer.next l)
  ∧ ((Lexer.next l).1.1 = Token.End →
        (Lexer.next l).2.input = []
      ∧ (Lexer.next ((Lexer.next l).2)).1.1 = Token.End
      ∧ (Lexer.next_generic ((Lexer.next l).2)).1.1 = Token.End) := by
  refine ⟨consume_token_trivia_lt input g, consume_token_zero_consumption input g, ?_, ?_⟩
  · cases g
    · show nextFuel false fuel l = Lexer.next l
      exact nextFuel_congr false fuel l (l.input.length + 1) hf (Nat.lt_succ_self _)
    · show nextFuel true fuel l = Lexer.next_generic l
      exact nextFuel_congr true fuel l (l.input.length + 1) hf (Nat.lt_succ_self _)
  · intro hEnd
    have hnil : (Lexer.next l).2.input = [] :=
      nextFuel_end false (l.input.length + 1) l (Nat.lt_succ_self _) hEnd
    refine ⟨hnil, ?_, ?_⟩
    · rw [Lexer.next_eq ((Lexer.next l).2) Token.End [] (by rw [hnil]; rfl) (by simp)]
    · rw [Lexer.next_generic_eq ((Lexer.next l).2) Token.End [] (by rw [hnil]; rfl) (by simp)]

/-- Witness for C5 at a one-space input and the empty-source cursor. -/
theorem claim_c5_witness :
    (Lexer.new []).input.length < 1
  ∧ (consume_token [' '] false).1 = Token.Trivia
  ∧ (consume_token [' '] false).2.length < [' '].length
  ∧ (Lexer.next (Lexer.new [])).1.1 = Token.End
  ∧ (Lexer.next ((Lexer.next (Lexer.new [])).2)).1.1 = Token.End := by
  have h := claim_c5 [' '] false (Lexer.new []) 1 (by decide)
  exact ⟨by decide, by decide, h.1 (by decide), by decide, (h.2.2.2 (by decide)).2.1⟩

/-- C6: `peek` returns exactly the (token, span) an immediately following
`next` would return, leaves the cursor state unchanged, and two consecutive
peeks return the same result. -/
theorem claim_c6 (l : Lexer) :
    (Lexer.peek l).1 = (Lexer.next l).1
  ∧ (Lexer.peek l).2 = l
  ∧ (Lexer.peek ((Lexer.peek l).2)).1 = (Lexer.peek l).1 :=
  ⟨rfl, rfl, rfl⟩

/-- C8: when `expect_span`/`expect` fail with an `Unexpected` error, the
cursor state is the state after `next`, i.e. the offending token has been
consumed and the cursor is not restored to the pre-call state. -/
theorem claim_c8 (l : Lexer) (expected : Token) (h : (Lexer.next l).1.1 ≠ expected) :
    (Lexer.expect_span l expected).1 =
      Except.error (Error.Unexpected (Lexer.next l).1 (ExpectedToken.Token expected))
  ∧ (Lexer.expect_span l expected).2 = (Lexer.next l).2
  ∧ (Lexer.expect l expected).1 =
      Except.error (Error.Unexpected (Lexer.next l).1 (ExpectedToken.Token expected))
  ∧ (Lexer.expect l expected).2 = (Lexer.next l).2 := by
  have h1 : (Lexer.expect_span l expected).1 =
      Except.error (Error.Unexpected (Lexer.next l).1 (ExpectedToken.Token expected)) := by
    simp only [Lexer.expect_span]
    rw [if_neg h]
  refine ⟨h1, expect_span_state l expected, ?_, expect_state l expected⟩
  simp only [Lexer.expect, h1]

/-- Witness for C8: expecting `(` on the input `x` fails and the cursor has
moved past the `Word` token (it is not the pre-call cursor). -/
theorem claim_c8_witness :
    (Lexer.next (Lexer.new ['x'])).1.1 ≠ Token.Paren '('
  ∧ (Lexer.expect_span (Lexer.new ['x']) (Token.Paren '(')).2 = (Lexer.next (Lexer.new ['x'])).2
  ∧ (Lexer.expect_span (Lexer.new ['x']) (Token.Paren '(')).2 ≠ Lexer.new ['x'] := by
  have h := claim_c8 (Lexer.new ['x']) (Token.Paren '(') (by decide)
  exact ⟨by decide, h.2.1, by decide⟩

/-- C9: `next_uint_literal` and `next_sint_literal` consult only the `value`
text of a `Number` token; the result is determined by parsing `value` alone,
for every tag `ty` and width `width`, and no error is raised for a mismatched
or unsupported tag or width. -/
theorem claim_c9 (l : Lexer) (value : List Char) (ty : Char) (width : List Char)
    (v : Nat) (vi : Int) (h : (Lexer.next l).1.1 = Token.Number value ty width) :
    (parseU32 value = some v →
      Lexer.next_uint_literal l = (Except.ok v, (Lexer.next l).2))
  ∧ (parseU32 value = none →
      Lexer.next_uint_literal l =
        (Except.error (Error.BadU32 (Lexer.next l).1.2), (Lexer.next l).2))
  ∧ (parseI32 value = some vi →
      Lexer.next_sint_literal l = (Except.ok vi, (Lexer.next l).2))
  ∧ (parseI32 value = none →
      Lexer.next_sint_literal l =
        (Except.error (Error.BadI32 (Lexer.next l).1.2), (Lexer.next l).2)) := by
  rcases hx : Lexer.next l with ⟨⟨tok, span⟩, l'⟩
  rw [hx] at h
  obtain rfl : tok = Token.Number value ty width := h
  refine ⟨?_, ?_, ?_, ?_⟩ <;> intro hp <;>
    simp [Lexer.next_uint_literal, Lexer.next_sint_literal, hx, hp]

/-- Witness for C9: the `u`-tagged literal `2u3` is accepted by
`next_sint_literal` (value text `2` parses; the tag and width are ignored). -/
theorem claim_c9_witness :
    (Lexer.next (Lexer.new ['2', 'u', '3'])).1.1 = Token.Number ['2'] 'u' ['3']
  ∧ Lexer.next_sint_literal (Lexer.new ['2', 'u', '3']) =
      (Except.ok 2, { input := [], source := ['2', 'u', '3'] }) := by
  have h := claim_c9 (Lexer.new ['2', 'u', '3']) ['2'] 'u' ['3'] 2 2 (by decide)
  exact ⟨by decide, (h.2.2.1 (by decide)).trans rfl⟩

/-- C10: `peek` and `skip` tokenize in non-generic mode: on remaining input
starting with `>>` or `>=`, `skip (Paren '>')` returns `false` and leaves the
cursor unchanged, because the lookahead sees a `ShiftOperation` or
`LogicalOperation` token. -/
theorem claim_c10 (l : Lexer) (t : List Char)
    (h : l.input = '>' :: '>' :: t ∨ l.input = '>' :: '=' :: t) :
    Lexer.skip l (Token.Paren '>') = (false, l) := by
  rcases h with h | h
  · have hn := Lexer.next_eq l (Token.ShiftOperation '>') t (by rw [h]; rfl) (by simp)
    simp [Lexer.skip, Lexer.peek_token_and_rest, hn]
  · have hn := Lexer.next_eq l (Token.LogicalOperation '>') t (by rw [h]; rfl) (by simp)
    simp [Lexer.skip, Lexer.peek_token_and_rest, hn]

/-- Witness for C10 at the fresh cursor on `>>`. -/
theorem claim_c10_witness :
    ((Lexer.new ['>', '>']).input = '>' :: '>' :: [] ∨ (Lexer.new ['>', '>']).input = '>' :: '=' :: [])
  ∧ Lexer.skip (Lexer.new ['>', '>']) (Token.Paren '>') = (false, Lexer.new ['>', '>']) :=
  ⟨Or.inl rfl, claim_c10 (Lexer.new ['>', '>']) [] (Or.inl rfl)⟩

/-- C2: after the scanned numeric core, a following `u`/`i`/`f` character
becomes the type tag and the maximal (possibly empty) digit run after it
becomes the width text; otherwise the token defaults to tag `f` when the core
contains `.` and `i` otherwise, with empty width.  Concretely `2u3o` scans as
`Number "2" 'u' "3"` then `Word "o"`, `2.4f44po` as `Number "2.4" 'f' "44"`
then `Word "po"`, and `92No` as `Number "92" 'i' ""` then `Word "No"`. -/
theorem claim_c2 (input : List Char) (ty : Char) (value rest1 : List Char)
    (hcore : scanCore true false input = (value, ty :: rest1)) :
    ((ty = 'u' ∨ ty = 'i' ∨ ty = 'f') →
        consume_number input =
          (Token.Number value ty (rest1.takeWhile isDigitChar), rest1.dropWhile isDigitChar))
  ∧ (¬(ty = 'u' ∨ ty = 'i' ∨ ty = 'f') →
        consume_number input =
          (Token.Number value (if value.contains '.' then 'f' else 'i') [], ty :: rest1))
  ∧ (∀ inp2 v2, scanCore true false inp2 = (v2, []) →
        consume_number inp2 = (Token.Number v2 (if v2.contains '.' then 'f' else 'i') [], []))
  ∧ Lexer.next (Lexer.new ['2', 'u', '3', 'o']) =
      ((Token.Number ['2'] 'u' ['3'], 0, 3), { input := ['o'], source := ['2', 'u', '3', 'o'] })
  ∧ Lexer.next { input := ['o'], source := ['2', 'u', '3', 'o'] } =
      ((Token.Word ['o'], 3, 4), { input := [], source := ['2', 'u', '3', 'o'] })
  ∧ Lexer.next (Lexer.new ['2', '.', '4', 'f', '4', '4', 'p', 'o']) =
      ((Token.Number ['2', '.', '4'] 'f' ['4', '4'], 0, 6),
        { input := ['p', 'o'], source := ['2', '.', '4', 'f', '4', '4', 'p', 'o'] })
  ∧ Lexer.next { input := ['p', 'o'], source := ['2', '.', '4', 'f', '4', '4', 'p', 'o'] } =
      ((Token.Word ['p', 'o'], 6, 8),
        { input := [], source := ['2', '.', '4', 'f', '4', '4', 'p', 'o'] })
  ∧ Lexer.next (Lexer.new ['9', '2', 'N', 'o']) =
      ((Token.Number ['9', '2'] 'i' [], 0, 2), { input := ['N', 'o'], source := ['9', '2', 'N', 'o'] })
  ∧ Lexer.next { input := ['N', 'o'], source := ['9', '2', 'N', 'o'] } =
      ((Token.Word ['N', 'o'], 2, 4), { input := [], source := ['9', '2', 'N', 'o'] }) := by
  refine ⟨fun hty => consume_number_tag input ty value rest1 hcore hty,
    fun hty => consume_number_default input value (ty :: rest1) hcore
      (fun ty2 rest2 heq => by injection heq with h1 h2; subst h1; exact hty),
    fun inp2 v2 h2 => consume_number_default inp2 v2 [] h2 (fun _ _ hcons => by simp at hcons),
    rfl, rfl, rfl, rfl, rfl, rfl⟩

/-- Witness for C2 at input `2u3o`: the scanned core is `2` with rest `u3o`,
and the tag/width split yields `Number "2" 'u' "3"` leaving `o`. -/
theorem claim_c2_witness :
    scanCore true false ['2', 'u', '3', 'o'] = (['2'], 'u' :: ['3', 'o'])
  ∧ consume_number ['2', 'u', '3', 'o'] = (Token.Number ['2'] 'u' ['3'], ['o']) := by
  have h := claim_c2 ['2', 'u', '3', 'o'] 'u' ['2'] ['3', 'o'] rfl
  exact ⟨rfl, (h.1 (Or.inl rfl)).trans rfl⟩

/-- C7: every cursor operation preserves the invariant that the remaining
input is a suffix of the original source (with the source unchanged), so the
current byte offset — original length minus remaining length — is always a
valid position in the source. -/
theorem claim_c7 (sclLk : List Char → Option (Nat × Nat))
    (fmtLk : List Char → Nat × Nat → Except Error Nat)
    (tok : Token) (ch : Char) (l : Lexer) (h : l.input <:+ l.source) :
    advances l (Lexer.next l).2
  ∧ advances l (Lexer.next_generic l).2
  ∧ advances l (Lexer.peek l).2
  ∧ advances l (Lexer.skip l tok).2
  ∧ advances l (Lexer.expect_span l tok).2
  ∧ advances l (Lexer.expect l tok).2
  ∧ advances l (Lexer.expect_generic_paren l ch).2
  ∧ advances l (Lexer.next_ident_with_span l).2
  ∧ advances l (Lexer.next_ident l).2
  ∧ advances l (Lexer.next_uint_literal l).2
  ∧ advances l (Lexer.next_sint_literal l).2
  ∧ advances l (Lexer.next_scalar_generic sclLk l).2
  ∧ advances l (Lexer.next_format_generic fmtLk l).2
  ∧ advances l (Lexer.open_arguments l).2
  ∧ advances l (Lexer.close_arguments l).2
  ∧ advances l (Lexer.next_argument l).2
  ∧ Lexer.current_byte_offset l ≤ l.source.length
  ∧ l.input.length ≤ l.source.length := by
  refine ⟨advances_of_next l h, advances_of_next_generic l h, ?_, advances_of_skip l tok h,
    advances_of_expect_span l tok h, advances_of_expect l tok h,
    advances_of_expect_generic_paren l ch h, advances_of_next_ident_with_span l h, ?_, ?_, ?_,
    advances_of_next_scalar_generic sclLk l h, advances_of_next_format_generic fmtLk l h,
    advances_of_expect l (Token.Paren '(') h, advances_of_close_arguments l h,
    advances_of_next_argument l h, Nat.sub_le _ _, h.length_le⟩
  · rw [peek_state]; exact advances_rfl l h
  · rw [next_ident_state]; exact advances_of_next l h
  · rw [next_uint_literal_state]; exact advances_of_next l h
  · rw [next_sint_literal_state]; exact advances_of_next l h

/-- Witness for C7 at the fresh cursor on `a` with the concrete lookups. -/
theorem claim_c7_witness :
    (Lexer.new ['a']).input <:+ (Lexer.new ['a']).source
  ∧ advances (Lexer.new ['a']) (Lexer.next (Lexer.new ['a'])).2
  ∧ advances (Lexer.new ['a']) (Lexer.next_format_generic xFormatLookup (Lexer.new ['a'])).2
  ∧ advances (Lexer.new ['a']) (Lexer.next_argument (Lexer.new ['a'])).2 := by
  have hw : (Lexer.new ['a']).input <:+ (Lexer.new ['a']).source := ⟨[], rfl⟩
  obtain ⟨p1, _, _, _, _, _, _, _, _, _, _, _, p13, _, _, p16, _, _⟩ :=
    claim_c7 xScalarLookup xFormatLookup (Token.Paren '(') '<' (Lexer.new ['a']) hw
  exact ⟨hw, p1, p13, p16⟩

/-- C4 counterexample: on `<x>>` (with a lookup accepting `x`) the source's
`next_format_generic` rejects the closing `>` — the non-generic `expect`
tokenizes `>>` as a `ShiftOperation` — while the spec's generic-bracket
version and `next_scalar_generic` accept it; the two helpers do not accept
the closing bracket identically. -/
theorem claim_c4_counterexample :
    (Lexer.next_format_generic xFormatLookup (Lexer.new ['<', 'x', '>', '>'])).1 =
      Except.error (Error.Unexpected (Token.ShiftOperation '>', 2, 4)
        (ExpectedToken.Token (Token.Paren '>')))
  ∧ (next_format_generic_spec xFormatLookup (Lexer.new ['<', 'x', '>', '>'])).1 = Except.ok 7
  ∧ (Lexer.next_scalar_generic xScalarLookup (Lexer.new ['<', 'x', '>', '>'])).1 =
      Except.ok (2, 4) :=
  ⟨rfl, rfl, rfl⟩

/-- C4 (amended): `next_format_generic` reads its enclosing brackets with the
plain non-generic `expect`, unlike `next_scalar_generic`'s generic-mode reads:
on an input `<ident>` whose closing `>` is immediately followed by `>` or `=`,
`next_scalar_generic` accepts the closing bracket while `next_format_generic`
fails with an `Unexpected` error on the two-character `ShiftOperation` /
`LogicalOperation` token; between the brackets it maps the inner identifier
through the externally supplied storage-format lookup and propagates whatever
failure that lookup reports. -/
theorem claim_c4_amended (fmtLk : List Char → Nat × Nat → Except Error Nat)
    (sclLk : List Char → Option (Nat × Nat)) (c : Char) (w : List Char) (d : Char)
    (rest : List Char) (fmt : Nat) (e : Error) (pr : Nat × Nat)
    (hc : isWordStart c = true) (hw : ∀ x ∈ w, isWordChar x = true)
    (hd : d = '>' ∨ d = '=') :
    (fmtLk (c :: w) (1, 2 + w.length) = Except.ok fmt →
      (Lexer.next_format_generic fmtLk
          (Lexer.new ('<' :: c :: (w ++ '>' :: d :: rest)))).1 =
        Except.error (Error.Unexpected
          ((if d = '>' then Token.ShiftOperation '>' else Token.LogicalOperation '>'),
            2 + w.length, 4 + w.length)
          (ExpectedToken.Token (Token.Paren '>'))))
  ∧ (fmtLk (c :: w) (1, 2 + w.length) = Except.error e →
      (Lexer.next_format_generic fmtLk
          (Lexer.new ('<' :: c :: (w ++ '>' :: d :: rest)))).1 = Except.error e)
  ∧ (sclLk (c :: w) = some pr →
      Lexer.next_scalar_generic sclLk (Lexer.new ('<' :: c :: (w ++ '>' :: d :: rest))) =
        (Except.ok pr,
          { input := d :: rest, source := '<' :: c :: (w ++ '>' :: d :: rest) })) := by
  have hne : ∀ d2 : Char, isWordStart d2 = false → c ≠ d2 :=
    fun d2 hd2 hcd => absurd (hcd ▸ hc) (by simp [hd2])
  -- step 0: the opening bracket, in both modes
  have hn0 : Lexer.next (Lexer.new ('<' :: c :: (w ++ '>' :: d :: rest))) =
      ((Token.Paren '<',
        ('<' :: c :: (w ++ '>' :: d :: rest)).length - ('<' :: c :: (w ++ '>' :: d :: rest)).length,
        ('<' :: c :: (w ++ '>' :: d :: rest)).length - (c :: (w ++ '>' :: d :: rest)).length),
       { input := c :: (w ++ '>' :: d :: rest), source := '<' :: c :: (w ++ '>' :: d :: rest) }) := by
    exact Lexer.next_eq _ _ _
      (consume_token_angle_paren '<' c (w ++ '>' :: d :: rest) (Or.inl rfl)
        (hne '=' (by decide)) (hne '<' (by decide)) false) (by simp)
  have hn0g : Lexer.next_generic (Lexer.new ('<' :: c :: (w ++ '>' :: d :: rest))) =
      ((Token.Paren '<',
        ('<' :: c :: (w ++ '>' :: d :: rest)).length - ('<' :: c :: (w ++ '>' :: d :: rest)).length,
        ('<' :: c :: (w ++ '>' :: d :: rest)).length - (c :: (w ++ '>' :: d :: rest)).length),
       { input := c :: (w ++ '>' :: d :: rest), source := '<' :: c :: (w ++ '>' :: d :: rest) }) := by
    exact Lexer.next_generic_eq _ _ _
      (consume_token_generic_angle '<' (c :: (w ++ '>' :: d :: rest)) (Or.inl rfl)) (by simp)
  have e1 : Lexer.expect (Lexer.new ('<' :: c :: (w ++ '>' :: d :: rest))) (Token.Paren '<') =
      (Except.ok (),
        { input := c :: (w ++ '>' :: d :: rest), source := '<' :: c :: (w ++ '>' :: d :: rest) }) :=
    expect_of_next _ _ _ _ hn0
  have e1g : Lexer.expect_generic_paren (Lexer.new ('<' :: c :: (w ++ '>' :: d :: rest))) '<' =
      (Except.ok (),
        { input := c :: (w ++ '>' :: d :: rest), source := '<' :: c :: (w ++ '>' :: d :: rest) }) :=
    expect_generic_of_next _ _ _ _ hn0g
  -- step 1: the identifier word
  have hn1 : Lexer.next
      ({ input := c :: (w ++ '>' :: d :: rest),
         source := '<' :: c :: (w ++ '>' :: d :: rest) } : Lexer) =
      ((Token.Word (c :: w), 1, 2 + w.length),
       { input := '>' :: d :: rest, source := '<' :: c :: (w ++ '>' :: d :: rest) }) := by
    have h1 := Lexer.next_eq
      ({ input := c :: (w ++ '>' :: d :: rest),
         source := '<' :: c :: (w ++ '>' :: d :: rest) } : Lexer)
      (Token.Word (c :: w)) ('>' :: d :: rest)
      (consume_token_word c w ('>' :: d :: rest) false hc hw
        (fun x hx => by
          simp only [List.head?_cons, Option.some.injEq] at hx
          subst hx; decide)) (by simp)
    dsimp only at h1
    have hsp1 : ('<' :: c :: (w ++ '>' :: d :: rest)).length
        - (c :: (w ++ '>' :: d :: rest)).length = 1 := by
      simp only [List.length_cons, List.length_append]; omega
    have hsp2 : ('<' :: c :: (w ++ '>' :: d :: rest)).length
        - ('>' :: d :: rest).length = 2 + w.length := by
      simp only [List.length_cons, List.length_append]; omega
    rw [hsp1, hsp2] at h1
    exact h1
  have i1 : Lexer.next_ident_with_span
      ({ input := c :: (w ++ '>' :: d :: rest),
         source := '<' :: c :: (w ++ '>' :: d :: rest) } : Lexer) =
      (Except.ok (c :: w, (1, 2 + w.length)),
       { input := '>' :: d :: rest, source := '<' :: c :: (w ++ '>' :: d :: rest) }) :=
    next_ident_with_span_of_next _ _ _ _ hn1
  -- step 2 (format path): the closing bracket read in non-generic mode
  have hn2 : Lexer.next
      ({ input := '>' :: d :: rest, source := '<' :: c :: (w ++ '>' :: d :: rest) } : Lexer) =
      (((if d = '>' then Token.ShiftOperation '>' else Token.LogicalOperation '>'),
        2 + w.length, 4 + w.length),
       { input := rest, source := '<' :: c :: (w ++ '>' :: d :: rest) }) := by
    have hsp2 : ('<' :: c :: (w ++ '>' :: d :: rest)).length
        - ('>' :: d :: rest).length = 2 + w.length := by
      simp only [List.length_cons, List.length_append]; omega
    have hsp3 : ('<' :: c :: (w ++ '>' :: d :: rest)).length - rest.length = 4 + w.length := by
      simp only [List.length_cons, List.length_append]; omega
    rcases hd with rfl | rfl
    · have h2 := Lexer.next_eq
        ({ input := '>' :: '>' :: rest,
           source := '<' :: c :: (w ++ '>' :: '>' :: rest) } : Lexer)
        (Token.ShiftOperation '>') rest (consume_token_shift '>' rest (Or.inr rfl)) (by simp)
      dsimp only at h2
      rw [hsp2, hsp3] at h2
      simpa using h2
    · have h2 := Lexer.next_eq
        ({ input := '>' :: '=' :: rest,
           source := '<' :: c :: (w ++ '>' :: '=' :: rest) } : Lexer)
        (Token.LogicalOperation '>') rest (by simp [consume_token]) (by simp)
      dsimp only at h2
      rw [hsp2, hsp3] at h2
      simpa using h2
  have e2err : Lexer.expect
      ({ input := '>' :: d :: rest, source := '<' :: c :: (w ++ '>' :: d :: rest) } : Lexer)
      (Token.Paren '>') =
      (Except.error (Error.Unexpected
        ((if d = '>' then Token.ShiftOperation '>' else Token.LogicalOperation '>'),
          2 + w.length, 4 + w.length)
        (ExpectedToken.Token (Token.Paren '>'))),
       { input := rest, source := '<' :: c :: (w ++ '>' :: d :: rest) }) :=
    expect_of_next_ne _ _ _ _ hn2 (by rcases hd with rfl | rfl <;> simp)
  -- step 2 (scalar path): the closing bracket read in generic mode
  have hn2g : Lexer.next_generic
      ({ input := '>' :: d :: rest, source := '<' :: c :: (w ++ '>' :: d :: rest) } : Lexer) =
      ((Token.Paren '>',
        ('<' :: c :: (w ++ '>' :: d :: rest)).length - ('>' :: d :: rest).length,
        ('<' :: c :: (w ++ '>' :: d :: rest)).length - (d :: rest).length),
       { input := d :: rest, source := '<' :: c :: (w ++ '>' :: d :: rest) }) :=
    Lexer.next_generic_eq _ _ _
      (consume_token_generic_angle '>' (d :: rest) (Or.inr rfl)) (by simp)
  have e2g : Lexer.expect_generic_paren
      ({ input := '>' :: d :: rest, source := '<' :: c :: (w ++ '>' :: d :: rest) } : Lexer) '>' =
      (Except.ok (),
       { input := d :: rest, source := '<' :: c :: (w ++ '>' :: d :: rest) }) :=
    expect_generic_of_next _ _ _ _ hn2g
  refine ⟨?_, ?_, ?_⟩
  · intro hok
    simp only [Lexer.next_format_generic, e1, i1, hok, e2err]
  · intro herr
    simp only [Lexer.next_format_generic, e1, i1, herr]
  · intro hpr
    simp only [Lexer.next_scalar_generic, e1g, hn1, hpr, e2g]

/-- Witness for C4 (amended) on `<x>>` with the concrete lookups. -/
theorem claim_c4_witness :
    xFormatLookup ['x'] (1, 2 + ([] : List Char).length) = Except.ok 7
  ∧ (Lexer.next_format_generic xFormatLookup (Lexer.new ['<', 'x', '>', '>'])).1 =
      Except.error (Error.Unexpected (Token.ShiftOperation '>', 2, 4)
        (ExpectedToken.Token (Token.Paren '>')))
  ∧ Lexer.next_scalar_generic xScalarLookup (Lexer.new ['<', 'x', '>', '>'])
      = (Except.ok (2, 4), { input := ['>'], source := ['<', 'x', '>', '>'] }) := by
  have h := claim_c4_amended xFormatLookup xScalarLookup 'x' [] '>' [] 7
    (Error.BadStorageFormat (0, 0)) (2, 4) (by decide) (by simp) (Or.inl rfl)
  refine ⟨rfl, ?_, ?_⟩
  · have h2 := h.1 rfl
    simpa using h2
  · have h3 := h.2.2 rfl
    simpa using h3
